import Mathlib

/-!
# docker-imds-local: the credential cache, its refresh loop and its HTTP route

A shallow embedding of `main.go`.  The program keeps one credential set in the
package variable `is`, refreshes it from STS on a ticker (`updateTimer`) and
serves it as JSON (`credentialHandler`).

Everything the program obtains from outside is an explicit argument here:
the readings of `time.Now()` and the outcome of `AssumeRole`.  The pieces of
the Go standard library the program calls (`time.Time.Format`,
`json.Marshal`, `fmt.Fprintf`) are modelled as far as the program uses them.
Go strings are sequences of bytes; they are modelled as `String`, that is,
as valid UTF-8 text.
-/

namespace ImdsLocal

/-! ## Constants (`main.go`, lines 19-25) -/

def iamRoleName : String := "dummy-iamrole"

def imdsCredentialPath : String := "/latest/meta-data/iam/security-credentials/"

def durationSeconds : Int := 1200

def updatableSeconds : Int := 600

def checkInterval : Int := 60

/-! ## `time.Time`

An instant is a count of whole seconds since the Unix epoch, a nanosecond
part, and the offset (seconds east of UTC) of the location in which the value
is held.  The monotonic clock reading that `time.Now()` also carries plays no
part in `Unix`, `Add`, `UTC` or `Format` and is left out. -/

structure Time where
  /-- Whole seconds since 1970-01-01T00:00:00Z: the `int64` that `Unix()`
  returns. -/
  sec : Int
  /-- Nanoseconds within the second, below 1000000000. -/
  nsec : Nat
  /-- Offset of the held location, seconds east of UTC. -/
  offset : Int
deriving DecidableEq, Repr

/-- The value of `time.Second` as a `time.Duration`: a count of nanoseconds. -/
def Second : Int := 1000000000

/-- The zero `time.Time`: January 1, year 1, 00:00:00 UTC. -/
def Time.zero : Time := { sec := -62135596800, nsec := 0, offset := 0 }

/-- `t.Unix()`: seconds since the epoch, independent of the location. -/
def Time.Unix (t : Time) : Int := t.sec

/-- `t.UTC()`: the same instant held in the UTC location. -/
def Time.UTC (t : Time) : Time := { t with offset := 0 }

/-- The value of an `int64` computation whose exact result is `x`. -/
def wrapInt64 (x : Int) : Int := (x + 9223372036854775808) % 18446744073709551616 - 9223372036854775808

/-- Seconds from 0001-01-01T00:00:00Z to the Unix epoch (`unixToInternal`). -/
def unixToInternal : Int := 62135596800

/-- `t.addSec(d)`: package `time` keeps the seconds counted from
0001-01-01T00:00:00Z in an `int64`; the sum is formed in `int64` arithmetic
and, when it overflows, replaced by the largest or the smallest second. -/
def Time.addSec (t : Time) (d : Int) : Time :=
  let ext := wrapInt64 (t.sec + unixToInternal)
  let sum := wrapInt64 (ext + d)
  let ext2 :=
    if decide (sum > ext) = decide (d > 0) then sum
    else if d > 0 then 9223372036854775807
    else -9223372036854775807
  { t with sec := wrapInt64 (ext2 - unixToInternal) }

/-- `t.Add(d)`: `d / 1e9` and `d % 1e9` are Go's truncating division and
remainder; the nanosecond part is brought back into range with a carry, and
the seconds are added by `addSec`. -/
def Time.Add (t : Time) (d : Int) : Time :=
  let dsec := Int.tdiv d 1000000000
  let nsec := (t.nsec : Int) + Int.tmod d 1000000000
  if 1000000000 ≤ nsec then
    { t.addSec (dsec + 1) with nsec := (nsec - 1000000000).toNat }
  else if nsec < 0 then
    { t.addSec (dsec - 1) with nsec := (nsec + 1000000000).toNat }
  else
    { t.addSec dsec with nsec := nsec.toNat }

/-! ### Calendar conversion (`absDate`, `absClock` of package `time`)

Package `time` counts days from an absolute epoch that lies a whole number of
400-year cycles before 0001-01-01; the day count here starts at 0001-01-01 and
uses flooring division, which gives the same cycles. -/

def secondsPerDay : Int := 86400

def daysPer400Years : Int := 146097

def daysPer100Years : Int := 36524

def daysPer4Years : Int := 1461

/-- `isLeap(year)`. -/
def isLeap (year : Int) : Bool :=
  year % 4 == 0 && (year % 100 != 0 || year % 400 == 0)

/-- The table `daysBefore`: `daysBefore m` is the number of days in a
non-leap year before month `m + 1`. -/
def daysBefore : Nat → Int
  | 0 => 0
  | 1 => 31
  | 2 => 59
  | 3 => 90
  | 4 => 120
  | 5 => 151
  | 6 => 181
  | 7 => 212
  | 8 => 243
  | 9 => 273
  | 10 => 304
  | 11 => 334
  | _ => 365

/-- The year and the zero-based day of the year holding day `d0`, counted
from 0001-01-01 (the first half of `absDate`). -/
def absYear (d0 : Int) : Int × Int :=
  -- Account for 400 year cycles.
  let n := d0 / daysPer400Years
  let y := 400 * n
  let d := d0 - daysPer400Years * n
  -- Cut off 100-year cycles; on the last day of the cycle the quotient is 4.
  let n := d / daysPer100Years
  let n := n - n / 4
  let y := y + 100 * n
  let d := d - daysPer100Years * n
  -- Cut off 4-year cycles.
  let n := d / daysPer4Years
  let y := y + 4 * n
  let d := d - daysPer4Years * n
  -- Cut off years within a 4-year cycle.
  let n := d / 365
  let n := n - n / 4
  let y := y + n
  let d := d - 365 * n
  (y + 1, d)

/-- The month (1-12) and the day of the month (1-31) of the zero-based day
`yday` of a year (the second half of `absDate`). -/
def absMonthDay (leap : Bool) (yday : Int) : Int × Int :=
  if leap && yday == 31 + 29 - 1 then
    -- Leap day.
    (2, 29)
  else
    -- After leap day; pretend it was not there.
    let day := if leap && yday > 31 + 29 - 1 then yday - 1 else yday
    -- Estimate the month on the assumption that every month has 31 days.
    let month := (day / 31).toNat
    let e := daysBefore (month + 1)
    if day ≥ e then
      ((month : Int) + 1 + 1, day - e + 1)
    else
      ((month : Int) + 1, day - daysBefore month + 1)

/-- `absDate(abs, true)`: year, month and day of the month. -/
def absDate (d0 : Int) : Int × Int × Int :=
  let yd := absYear d0
  let md := absMonthDay (isLeap yd.1) yd.2
  (yd.1, md.1, md.2)

/-- `absClock(abs)`: hour, minute and second within the day. -/
def absClock (abs : Int) : Int × Int × Int :=
  let sec := abs % secondsPerDay
  let hour := sec / 3600
  let sec := sec - hour * 3600
  let min := sec / 60
  let sec := sec - min * 60
  (hour, min, sec)

/-- Seconds since 0001-01-01T00:00:00 in the held location (`t.abs()`). -/
def Time.abs (t : Time) : Int := t.sec + t.offset + unixToInternal

/-! ### Formatting (`appendInt`, `nextStdChunk`, `AppendFormat`) -/

/-- The decimal digit `n` as a character. -/
def digit (n : Nat) : Char := Char.ofNat (48 + n % 10)

/-- The decimal digits of `u`, most significant first, in front of `acc`;
`fuel` bounds the number of digits produced. -/
def decimal : Nat → Nat → List Char → List Char
  | 0, _, acc => acc
  | fuel + 1, u, acc =>
    if u / 10 = 0 then digit u :: acc else decimal fuel (u / 10) (digit u :: acc)

/-- `appendInt(b, x, width)` without the buffer: a minus sign for a negative
`x`, then the decimal digits of its magnitude, zero-padded to `width`. -/
def appendInt (x : Int) (width : Nat) : List Char :=
  let u := x.natAbs
  let ds := decimal (u + 1) u []
  (if x < 0 then ['-'] else []) ++ List.replicate (width - ds.length) '0' ++ ds

/-- The layout elements of package `time` that the program's layout uses. -/
inductive Std where
  | stdLongYear
  | stdZeroMonth
  | stdZeroDay
  | stdHour
  | stdZeroMinute
  | stdZeroSecond
deriving DecidableEq, Repr

/-- One piece of a layout: a layout element, or a character copied as is. -/
inductive Chunk where
  | std (s : Std)
  | lit (c : Char)
deriving DecidableEq, Repr

/-- The layout split into pieces, as repeated `nextStdChunk` does for the
elements `2006`, `01`, `02`, `15`, `04`, `05`; any other character is literal
text.  (The further elements of package `time`, such as month names or zone
offsets `Z07:00`, do not occur in the program's layout and are not modelled.) -/
def chunks : List Char → List Chunk
  | [] => []
  | '2' :: '0' :: '0' :: '6' :: rest => Chunk.std Std.stdLongYear :: chunks rest
  | '0' :: '1' :: rest => Chunk.std Std.stdZeroMonth :: chunks rest
  | '0' :: '2' :: rest => Chunk.std Std.stdZeroDay :: chunks rest
  | '1' :: '5' :: rest => Chunk.std Std.stdHour :: chunks rest
  | '0' :: '4' :: rest => Chunk.std Std.stdZeroMinute :: chunks rest
  | '0' :: '5' :: rest => Chunk.std Std.stdZeroSecond :: chunks rest
  | c :: rest => Chunk.lit c :: chunks rest

/-- The text `AppendFormat` writes for one piece of the layout. -/
def appendChunk (t : Time) : Chunk → List Char
  | Chunk.lit c => [c]
  | Chunk.std Std.stdLongYear => appendInt (absDate (t.abs / secondsPerDay)).1 4
  | Chunk.std Std.stdZeroMonth => appendInt (absDate (t.abs / secondsPerDay)).2.1 2
  | Chunk.std Std.stdZeroDay => appendInt (absDate (t.abs / secondsPerDay)).2.2 2
  | Chunk.std Std.stdHour => appendInt (absClock t.abs).1 2
  | Chunk.std Std.stdZeroMinute => appendInt (absClock t.abs).2.1 2
  | Chunk.std Std.stdZeroSecond => appendInt (absClock t.abs).2.2 2

/-- `t.Format(layout)`. -/
def Time.Format (t : Time) (layout : String) : String :=
  String.mk ((chunks layout.data).flatMap (appendChunk t))

/-! ## `utcTime` (`main.go`, lines 50-60) -/

structure utcTime where
  Time : Time
deriving DecidableEq, Repr

/-- `func (u utcTime) format() string`. -/
def utcTime.format (u : utcTime) : String :=
  u.Time.UTC.Format "2006-01-02T15:04:05Z"

/-- `func (u utcTime) MarshalJSON() ([]byte, error)`; the error is always
`nil`, so only the bytes are returned. -/
def utcTime.MarshalJSON (u : utcTime) : String :=
  "\"" ++ u.format ++ "\""

/-! ## The cached state (`main.go`, lines 27-48) -/

/-- `type creds struct`; the field `Type` is spelled `Type_`. -/
structure creds where
  Code : String
  LastUpdated : utcTime
  Type_ : String
  AccessKey : String
  SecretKey : String
  Token : String
  Expiration : utcTime
deriving DecidableEq, Repr

/-- `type imdsState struct`; `updatedUnixTime` is an `int64`. -/
structure imdsState where
  creds : creds
  updatedUnixTime : Int
deriving DecidableEq, Repr

/-- The zero value of `creds`, which is what a named result holds before any
assignment. -/
def creds.zero : creds :=
  { Code := "", LastUpdated := ⟨Time.zero⟩, Type_ := "", AccessKey := "",
    SecretKey := "", Token := "", Expiration := ⟨Time.zero⟩ }

/-- The package variable `is` at program start: the zero value. -/
def imdsState.zero : imdsState := { creds := creds.zero, updatedUnixTime := 0 }

/-! ## The Identity Provider (`main.go`, lines 62-84) -/

/-- The `Credentials` of an `sts.AssumeRoleOutput`. -/
structure Credentials where
  AccessKeyId : String
  SecretAccessKey : String
  SessionToken : String
deriving DecidableEq, Repr

/-- `func getCredentials() (retCreds creds)`.  `output` is what
`createSTSClient().AssumeRole(&input)` gave: `none` when `err != nil`, in
which case the named result is returned as it is, the zero value; `now` is the
reading of `time.Now()` on line 75.  (A failure of `createSession` ends the
process through `log.Fatal` and is no outcome of this function.) -/
def getCredentials (output : Option Credentials) (now : Time) : creds :=
  match output with
  | none => creds.zero
  | some out =>
    { Code := "Success"
      LastUpdated := ⟨now⟩
      Type_ := "AWS-HMAC"
      AccessKey := out.AccessKeyId
      SecretKey := out.SecretAccessKey
      Token := out.SessionToken
      Expiration := ⟨now.Add (durationSeconds * Second)⟩ }

/-! ## The scheduler (`main.go`, lines 129-149)

Each operation returns the new value of `is` together with the events it
performs, in program order. -/

/-- What an operation does to the outside world and to the shared variables. -/
inductive Event where
  /-- Event `mu.Lock()`. -/
  | Lock
  /-- Event `mu.Unlock()`. -/
  | Unlock
  /-- The call of the Identity Provider made by `getCredentials`. -/
  | AssumeRole
  /-- A read of `is.creds`. -/
  | readCreds
  /-- A write of `is.creds`. -/
  | writeCreds
  /-- A read of `is.updatedUnixTime`. -/
  | readUpdated
  /-- A write of `is.updatedUnixTime`. -/
  | writeUpdated
deriving DecidableEq, Repr

/-- What one pass through the loop body reads from outside. -/
structure TickEnv where
  /-- The reading of `time.Now()` on line 136. -/
  now : Time
  /-- The outcome of `AssumeRole`, should `getCredentials` be called. -/
  output : Option Credentials
  /-- The reading of `time.Now()` inside `getCredentials` (line 75). -/
  credsNow : Time
  /-- The reading of `time.Now()` on line 142. -/
  commitNow : Time
deriving DecidableEq, Repr

/-- `elapsedSeconds := time.Now().Unix() - is.updatedUnixTime` (line 136). -/
def elapsedSeconds (st : imdsState) (now : Time) : Int :=
  wrapInt64 (now.Unix - st.updatedUnixTime)

/-- The statement before the loop (line 130): `is.creds = getCredentials()`. -/
def startup (st : imdsState) (output : Option Credentials) (now : Time) :
    imdsState × List Event :=
  ({ st with creds := getCredentials output now }, [Event.AssumeRole, Event.writeCreds])

/-- One pass through the loop body, run when the ticker fires (lines 135-146). -/
def tick (st : imdsState) (e : TickEnv) : imdsState × List Event :=
  if updatableSeconds < elapsedSeconds st e.now then
    let tmpCreds := getCredentials e.output e.credsNow
    if tmpCreds.Code = "Success" then
      ({ creds := tmpCreds, updatedUnixTime := e.commitNow.Unix },
        [Event.readUpdated, Event.AssumeRole, Event.Lock, Event.writeCreds,
          Event.writeUpdated, Event.Unlock])
    else
      (st, [Event.readUpdated, Event.AssumeRole])
  else
    (st, [Event.readUpdated])

/-- The loop of `updateTimer` run for the ticks `es`: the final state and the
events of each pass. -/
def ticks : imdsState → List TickEnv → imdsState × List (List Event)
  | st, [] => (st, [])
  | st, e :: es =>
    let r := tick st e
    let rs := ticks r.1 es
    (rs.1, r.2 :: rs.2)

/-- `func updateTimer(ticker int)` from program start up to and including the
ticks `es`.  The period `ticker` decides when the passes run; here the clock
reading of each pass is part of `es`. -/
def updateTimer (output : Option Credentials) (now : Time) (es : List TickEnv) :
    imdsState × List (List Event) :=
  let r := startup imdsState.zero output now
  let rs := ticks r.1 es
  (rs.1, r.2 :: rs.2)

/-! ## `json.Marshal` of a `creds` value -/

/-- The table `hex` of `encoding/json`. -/
def hexDigit (n : Nat) : Char :=
  if n % 16 < 10 then Char.ofNat (48 + n % 16) else Char.ofNat (87 + n % 16)

/-- The table `htmlSafeSet`: the ASCII characters that `json.Marshal` copies
unchanged. -/
def htmlSafe (c : Char) : Bool :=
  32 ≤ c.toNat && c.toNat < 128 && c != '"' && c != '\\' && c != '<' && c != '>' && c != '&'

/-- What `appendString` (with `escapeHTML` set) writes for one character.
Backspace and form feed are written `\b` and `\f`, as Go 1.22 and later do;
earlier releases write them `\u0008` and `\u000c`. -/
def escapeChar (c : Char) : List Char :=
  if c.toNat < 128 then
    if htmlSafe c then [c]
    else if c = '\\' ∨ c = '"' then ['\\', c]
    else if c.toNat = 8 then ['\\', 'b']
    else if c.toNat = 12 then ['\\', 'f']
    else if c = '\n' then ['\\', 'n']
    else if c = '\r' then ['\\', 'r']
    else if c = '\t' then ['\\', 't']
    else ['\\', 'u', '0', '0', hexDigit (c.toNat / 16), hexDigit c.toNat]
  else if c.toNat = 8232 ∨ c.toNat = 8233 then
    ['\\', 'u', '2', '0', '2', hexDigit c.toNat]
  else [c]

/-- `appendString(dst, src, true)`: a JSON string literal. -/
def appendString (src : String) : List Char :=
  ['"'] ++ src.data.flatMap escapeChar ++ ['"']

/-- One `"name":` of the object. -/
def fieldName (name : String) : List Char :=
  ['"'] ++ name.data ++ ['"', ':']

/-- `json.Marshal(c)` for `c` of type `creds`: the fields in declaration
order under their `json` tags; `LastUpdated` and `Expiration` through their
`MarshalJSON`.  The marshalling cannot fail, so only the bytes are returned. -/
def Marshal (c : creds) : String :=
  String.mk (['{']
    ++ fieldName "Code" ++ appendString c.Code ++ [',']
    ++ fieldName "LastUpdated" ++ c.LastUpdated.MarshalJSON.data ++ [',']
    ++ fieldName "Type" ++ appendString c.Type_ ++ [',']
    ++ fieldName "AccessKeyId" ++ appendString c.AccessKey ++ [',']
    ++ fieldName "SecretAccessKey" ++ appendString c.SecretKey ++ [',']
    ++ fieldName "Token" ++ appendString c.Token ++ [',']
    ++ fieldName "Expiration" ++ c.Expiration.MarshalJSON.data
    ++ ['}'])

/-! ## `fmt.Fprintf(w, format)` with no operands (`doPrintf` of package `fmt`) -/

/-- `tooLarge(x)`. -/
def tooLarge (x : Nat) : Bool := decide (1000000 < x)

/-- The loop of `parsenum` over the characters up to `end`: the number, whether
a digit was seen, and the characters left.  On overflow nothing is left. -/
def parsenumLoop : List Char → Nat → Bool → Nat × Bool × List Char
  | [], num, isnum => (num, isnum, [])
  | c :: rest, num, isnum =>
    if '0' ≤ c ∧ c ≤ '9' then
      if tooLarge num then (0, false, [])
      else parsenumLoop rest (num * 10 + (c.toNat - 48)) true
    else (num, isnum, c :: rest)

/-- `parsenum(s, start, end)` on the characters `s[start:end]`. -/
def parsenum (seg : List Char) : Nat × Bool × List Char :=
  parsenumLoop seg 0 false

/-- The characters before the first `]` and those after it. -/
def splitBracket : List Char → Option (List Char × List Char)
  | [] => none
  | c :: rest =>
    if c = ']' then some ([], rest)
    else match splitBracket rest with
      | none => none
      | some (seg, after) => some (c :: seg, after)

/-- The length in bytes of the UTF-8 encoding. -/
def byteLen (s : List Char) : Nat := (s.map Char.utf8Size).sum

/-- `parseArgNumber(format)` for a format that starts with `[`, whose tail is
`tl`: the format left after the bytes to consume, and whether the number
parsed. -/
def parseArgNumber (tl : List Char) : List Char × Bool :=
  if 1 + byteLen tl < 3 then (tl, false)
  else match splitBracket tl with
    | none => (tl, false)
    | some (seg, after) =>
      let r := parsenum seg
      if !r.2.1 || !r.2.2.isEmpty then (after, false) else (after, true)

/-- `p.argNumber(argNum, format, i, 0)`: the format left, `found`, and
whether a bracket was seen.  With no operands every bracketed index is out
of range, so a bracket always clears `p.goodArgNum`. -/
def argNumber : List Char → List Char × Bool × Bool
  | '[' :: tl => let r := parseArgNumber tl; (r.1, r.2, true)
  | f => (f, false, false)

/-- Whether `c` is one of the flags `#0+- `. -/
def isFlag (c : Char) : Bool :=
  c == '#' || c == '0' || c == '+' || c == '-' || c == ' '

/-- The state of `doPrintf` while it reads one verb: the text written for the
verb so far, the format left, `afterIndex` and `p.goodArgNum`. -/
structure VerbState where
  out : List Char
  format : List Char
  afterIndex : Bool
  goodArgNum : Bool
deriving DecidableEq, Repr

/-- The start of a verb, right after its `%`: the flags are skipped, then an
explicit argument index is read. -/
def verbIndex (f : List Char) : VerbState :=
  let a := argNumber (f.dropWhile isFlag)
  { out := [], format := a.1, afterIndex := a.2.1, goodArgNum := !a.2.2 }

/-- The width: `*` asks for an operand, and there is none; otherwise a number. -/
def verbWidth (s : VerbState) : VerbState :=
  match s.format with
  | '*' :: rest =>
    { out := s.out ++ "%!(BADWIDTH)".data, format := rest, afterIndex := false,
      goodArgNum := s.goodArgNum }
  | f =>
    let r := parsenum f
    { out := s.out, format := r.2.2, afterIndex := s.afterIndex,
      goodArgNum := s.goodArgNum && !(s.afterIndex && r.2.1) }

/-- The precision, when the format goes on with a `.`. -/
def verbPrecision (s : VerbState) : VerbState :=
  match s.format with
  | '.' :: rest =>
    let a := argNumber rest
    let good := s.goodArgNum && !s.afterIndex && !a.2.2
    match a.1 with
    | '*' :: rest2 =>
      { out := s.out ++ "%!(BADPREC)".data, format := rest2, afterIndex := false,
        goodArgNum := good }
    | f2 =>
      { out := s.out, format := (parsenum f2).2.2, afterIndex := a.2.1, goodArgNum := good }
  | _ => s

/-- The argument index that may stand right before the verb. -/
def verbLastIndex (s : VerbState) : VerbState :=
  if s.afterIndex then s
  else
    let a := argNumber s.format
    { out := s.out, format := a.1, afterIndex := a.2.1,
      goodArgNum := s.goodArgNum && !a.2.2 }

/-- The verb itself: `%%` writes a percent sign; any other verb finds no
operand. -/
def verbFinish (s : VerbState) : List Char × List Char :=
  match s.format with
  | [] => (s.out ++ "%!(NOVERB)".data, [])
  | verb :: rest =>
    if verb = '%' then (s.out ++ ['%'], rest)
    else if !s.goodArgNum then (s.out ++ "%!".data ++ [verb] ++ "(BADINDEX)".data, rest)
    else (s.out ++ "%!".data ++ [verb] ++ "(MISSING)".data, rest)

/-- The processing of one verb, started right after its `%`: the text written
and the format left. -/
def doVerb (f : List Char) : List Char × List Char :=
  verbFinish (verbLastIndex (verbPrecision (verbWidth (verbIndex f))))

/-- The loop of `doPrintf`: text up to the next `%` is copied, then one verb is
processed.  Every pass consumes a character, so `fuel` equal to the length of
the format is enough. -/
def doPrintfLoop : Nat → List Char → List Char
  | 0, _ => []
  | _ + 1, [] => []
  | fuel + 1, c :: rest =>
    if c = '%' then
      let r := doVerb rest
      r.1 ++ doPrintfLoop fuel r.2
    else c :: doPrintfLoop fuel rest

/-- What `fmt.Fprintf(w, format)` writes to `w`. -/
def Fprintf (format : String) : String :=
  String.mk (doPrintfLoop format.length format.data)

/-! ## The HTTP routes (`main.go`, lines 111-127) -/

/-- `func rolenameHandler`: the response body. -/
def rolenameHandler : String := Fprintf iamRoleName

/-- `func credentialHandler`: the response body and the events performed. -/
def credentialHandler (st : imdsState) : String × List Event :=
  let jsonByte := Marshal st.creds
  (Fprintf jsonByte, [Event.Lock, Event.readCreds, Event.Unlock])

/-! ## Notions used to state the properties

### The scheduler -/

/-- Every call of the Identity Provider made while the ticks `es` run from
`st` fails: the credential set it returns has a `Code` other than
`"Success"`. -/
def everyCallFails : imdsState → List TickEnv → Prop
  | _, [] => True
  | st, e :: es =>
    (Event.AssumeRole ∈ (tick st e).2 → (getCredentials e.output e.credsNow).Code ≠ "Success") ∧
      everyCallFails (tick st e).1 es

/-- The clock readings of the ticks `es` are non-decreasing and none is
earlier than `t`. -/
def clockFrom : Int → List TickEnv → Prop
  | _, [] => True
  | t, e :: es => t ≤ e.now.Unix ∧ clockFrom e.now.Unix es

/-- Whether every access to `is.creds` in a sequence of events is made while
`mu` is held; `held` tells whether it is held at the start. -/
def credsGuarded : Bool → List Event → Bool
  | _, [] => true
  | _, Event.Lock :: rest => credsGuarded true rest
  | _, Event.Unlock :: rest => credsGuarded false rest
  | held, Event.readCreds :: rest => held && credsGuarded held rest
  | held, Event.writeCreds :: rest => held && credsGuarded held rest
  | held, _ :: rest => credsGuarded held rest

/-! ### The Gregorian calendar and the text `YYYY-MM-DDTHH:MM:SSZ`

Defined from the lengths of the years and of the months, independently of the
conversion that `Format` performs. -/

/-- Whether year `y` is a leap year of the (proleptic) Gregorian calendar. -/
def gregorianLeap (y : Nat) : Bool :=
  decide (y % 400 = 0 ∨ (y % 4 = 0 ∧ y % 100 ≠ 0))

/-- The number of days of year `y`. -/
def daysInYear (y : Nat) : Nat := if gregorianLeap y then 366 else 365

/-- The number of days of month `m` (1 = January) of a leap or a common year. -/
def monthLength (leap : Bool) (m : Nat) : Nat :=
  if m = 2 then (if leap then 29 else 28)
  else if m = 4 ∨ m = 6 ∨ m = 9 ∨ m = 11 then 30
  else 31

/-- The number of days of a leap or a common year before the first day of
month `m`. -/
def monthStart (leap : Bool) : Nat → Nat
  | 0 => 0
  | 1 => 0
  | m + 1 => monthStart leap m + monthLength leap m

/-- The number of days of month `m` (1 = January) of year `y`. -/
def daysInMonth (y m : Nat) : Nat := monthLength (gregorianLeap y) m

/-- The number of days from 0000-01-01 to the first day of year `y`. -/
def daysBeforeYear : Nat → Nat
  | 0 => 0
  | y + 1 => daysBeforeYear y + daysInYear y

/-- The number of days of year `y` before the first day of month `m`. -/
def daysBeforeMonth (y m : Nat) : Nat := monthStart (gregorianLeap y) m

/-- The number of days from 0000-01-01 to the day `d` of month `m` of year `y`. -/
def daysFromCivil (y m d : Nat) : Nat :=
  daysBeforeYear y + daysBeforeMonth y m + (d - 1)

/-- The Unix time of `y-m-d h:mi:s` UTC: seconds from 1970-01-01T00:00:00Z. -/
def unixFromCivil (y m d h mi s : Nat) : Int :=
  ((daysFromCivil y m d : Int) - (daysFromCivil 1970 1 1 : Int)) * 86400
    + 3600 * (h : Int) + 60 * (mi : Int) + (s : Int)

/-- The character of the decimal digit `k`. -/
def decimalDigit (k : Nat) : Char := Char.ofNat (48 + k)

/-- The two decimal digits of a number below 100. -/
def twoDigits (n : Nat) : List Char := [decimalDigit (n / 10), decimalDigit (n % 10)]

/-- The four decimal digits of a number below 10000. -/
def fourDigits (n : Nat) : List Char :=
  [decimalDigit (n / 1000), decimalDigit (n / 100 % 10), decimalDigit (n / 10 % 10),
    decimalDigit (n % 10)]

/-- The text `YYYY-MM-DDTHH:MM:SSZ` of a date and a time of day. -/
def isoUTC (y m d h mi s : Nat) : String :=
  String.mk (fourDigits y ++ ['-'] ++ twoDigits m ++ ['-'] ++ twoDigits d ++ ['T']
    ++ twoDigits h ++ [':'] ++ twoDigits mi ++ [':'] ++ twoDigits s ++ ['Z'])

/-- What `absMonthDay` has to satisfy on day `n` of a year: a month from 1 to
12 and a day of that month, `n` days after the first day of the year. -/
def monthDayOk (leap : Bool) (n : Nat) : Bool :=
  let r := absMonthDay leap (n : Int)
  decide (1 ≤ r.1) && decide (r.1 ≤ 12) && decide (1 ≤ r.2) &&
    decide (r.2 ≤ (monthLength leap r.1.toNat : Int)) &&
    decide ((monthStart leap r.1.toNat : Int) + (r.2 - 1) = (n : Int))

/-! ### Concrete inputs -/

def keysA : Credentials := ⟨"ASIAEXAMPLEA", "secretA", "tokenA"⟩

def keysB : Credentials := ⟨"ASIAEXAMPLEB", "secretB", "tokenB"⟩

/-- A store committed at Unix time 1700000000 (2023-11-14T22:13:20Z). -/
def storeAt : imdsState :=
  { creds := getCredentials (some keysA) ⟨1700000000, 0, 0⟩, updatedUnixTime := 1700000000 }

/-- A tick whose clock reads `t` and at which the provider would succeed. -/
def tickAt (t : Int) : TickEnv :=
  { now := ⟨t, 0, 0⟩, output := some keysB, credsNow := ⟨t, 500000000, 0⟩,
    commitNow := ⟨t, 600000000, 0⟩ }

/-- A tick whose clock reads `t` and at which the provider would fail. -/
def failAt (t : Int) : TickEnv :=
  { now := ⟨t, 0, 0⟩, output := none, credsNow := ⟨t, 500000000, 0⟩,
    commitNow := ⟨t, 600000000, 0⟩ }

/-- A successful tick whose clock readings on lines 75 and 142 fall in two
different seconds. -/
def straddle : TickEnv :=
  { now := ⟨1700000700, 0, 0⟩, output := some keysB,
    credsNow := ⟨1700000700, 999999999, 0⟩, commitNow := ⟨1700000701, 1000, 0⟩ }

/-- A store whose session token holds a percent sign. -/
def storePercent : imdsState :=
  { creds := getCredentials (some ⟨"ASIAEXAMPLE", "secret", "tok%dend"⟩) ⟨1593940183, 0, 0⟩,
    updatedUnixTime := 1593940183 }

/-- The instant 2020-07-05T09:09:43.000000005Z held in a zone nine hours east
of UTC. -/
def sampleTime : Time := { sec := 1593940183, nsec := 5, offset := 32400 }

/-! ## The scheduler: basic facts -/

theorem wrapInt64_of_range (x : Int) (h1 : -9223372036854775808 ≤ x)
    (h2 : x < 9223372036854775808) : wrapInt64 x = x := by
  unfold wrapInt64
  omega

theorem getCredentials_Code_iff (output : Option Credentials) (now : Time) :
    (getCredentials output now).Code = "Success" ↔ output ≠ none := by
  cases output with
  | none => simp [getCredentials, creds.zero]
  | some out => simp [getCredentials]

/-- A tick below or at the threshold only reads the timestamp. -/
theorem tick_of_not_lt (st : imdsState) (e : TickEnv)
    (h : ¬ updatableSeconds < elapsedSeconds st e.now) :
    tick st e = (st, [Event.readUpdated]) := by
  simp [tick, h]

/-- A tick past the threshold whose call fails changes nothing. -/
theorem tick_of_fail (st : imdsState) (e : TickEnv)
    (h : updatableSeconds < elapsedSeconds st e.now)
    (hf : (getCredentials e.output e.credsNow).Code ≠ "Success") :
    tick st e = (st, [Event.readUpdated, Event.AssumeRole]) := by
  simp [tick, h, hf]

/-- A tick past the threshold whose call succeeds commits under the lock. -/
theorem tick_of_success (st : imdsState) (e : TickEnv)
    (h : updatableSeconds < elapsedSeconds st e.now)
    (hs : (getCredentials e.output e.credsNow).Code = "Success") :
    tick st e = ({ creds := getCredentials e.output e.credsNow,
                   updatedUnixTime := e.commitNow.Unix },
      [Event.readUpdated, Event.AssumeRole, Event.Lock, Event.writeCreds,
        Event.writeUpdated, Event.Unlock]) := by
  simp [tick, h, hs]

theorem assumeRole_mem_tick (st : imdsState) (e : TickEnv) :
    Event.AssumeRole ∈ (tick st e).2 ↔ updatableSeconds < elapsedSeconds st e.now := by
  by_cases h : updatableSeconds < elapsedSeconds st e.now
  · by_cases hs : (getCredentials e.output e.credsNow).Code = "Success"
    · simp [tick_of_success st e h hs, h]
    · simp [tick_of_fail st e h hs, h]
  · simp [tick_of_not_lt st e h, h]

theorem writeCreds_mem_tick (st : imdsState) (e : TickEnv) :
    Event.writeCreds ∈ (tick st e).2 ↔
      updatableSeconds < elapsedSeconds st e.now ∧
        (getCredentials e.output e.credsNow).Code = "Success" := by
  by_cases h : updatableSeconds < elapsedSeconds st e.now
  · by_cases hs : (getCredentials e.output e.credsNow).Code = "Success"
    · simp [tick_of_success st e h hs, h, hs]
    · simp [tick_of_fail st e h hs, h, hs]
  · simp [tick_of_not_lt st e h, h]

theorem tick_state_of_call_fails (st : imdsState) (e : TickEnv)
    (h : Event.AssumeRole ∈ (tick st e).2 →
      (getCredentials e.output e.credsNow).Code ≠ "Success") :
    (tick st e).1 = st := by
  by_cases hlt : updatableSeconds < elapsedSeconds st e.now
  · have hf := h ((assumeRole_mem_tick st e).2 hlt)
    rw [tick_of_fail st e hlt hf]
  · rw [tick_of_not_lt st e hlt]

theorem ticks_state_of_everyCallFails (st : imdsState) (es : List TickEnv)
    (h : everyCallFails st es) : (ticks st es).1 = st := by
  induction es generalizing st with
  | nil => rfl
  | cons e es ih =>
    obtain ⟨h1, h2⟩ := h
    have hst := tick_state_of_call_fails st e h1
    simp only [ticks]
    rw [hst] at h2 ⊢
    exact ih st h2

theorem ticks_noop_of_below (st : imdsState) (es : List TickEnv)
    (h : ∀ e ∈ es, elapsedSeconds st e.now < 600) :
    ticks st es = (st, es.map fun _ => [Event.readUpdated]) := by
  induction es with
  | nil => rfl
  | cons e es ih =>
    have hlt : ¬ updatableSeconds < elapsedSeconds st e.now := by
      have := h e (List.mem_cons_self e es)
      unfold updatableSeconds
      omega
    have ih2 := ih (fun e2 he2 => h e2 (List.mem_cons_of_mem e he2))
    simp only [ticks, tick_of_not_lt st e hlt, ih2, List.map_cons]

theorem ticks_length (st : imdsState) (es : List TickEnv) :
    (ticks st es).2.length = es.length := by
  induction es generalizing st with
  | nil => rfl
  | cons e es ih => simp only [ticks, List.length_cons, ih]

theorem tick_keeps_success (st : imdsState) (e : TickEnv)
    (h : st.creds.Code = "Success") : (tick st e).1.creds.Code = "Success" := by
  by_cases hlt : updatableSeconds < elapsedSeconds st e.now
  · by_cases hs : (getCredentials e.output e.credsNow).Code = "Success"
    · rw [tick_of_success st e hlt hs]; exact hs
    · rw [tick_of_fail st e hlt hs]; exact h
  · rw [tick_of_not_lt st e hlt]; exact h

theorem ticks_keep_success (st : imdsState) (es : List TickEnv)
    (h : st.creds.Code = "Success") : (ticks st es).1.creds.Code = "Success" := by
  induction es generalizing st with
  | nil => exact h
  | cons e es ih => exact ih (tick st e).1 (tick_keeps_success st e h)

/-- After any ticks the store either holds a `Success` credential set or is
the store the ticks started from, none of them having committed. -/
theorem ticks_success_or_unchanged (st : imdsState) (es : List TickEnv) :
    (ticks st es).1.creds.Code = "Success" ∨
      ((ticks st es).1 = st ∧ ∀ tr ∈ (ticks st es).2, Event.writeCreds ∉ tr) := by
  induction es generalizing st with
  | nil => right; exact ⟨rfl, fun _ h => by simp [ticks] at h⟩
  | cons e es ih =>
    by_cases hc : Event.writeCreds ∈ (tick st e).2
    · left
      obtain ⟨hlt, hs⟩ := (writeCreds_mem_tick st e).1 hc
      show (ticks (tick st e).1 es).1.creds.Code = "Success"
      apply ticks_keep_success
      rw [tick_of_success st e hlt hs]; exact hs
    · have hst : (tick st e).1 = st := by
        by_cases hlt : updatableSeconds < elapsedSeconds st e.now
        · by_cases hs : (getCredentials e.output e.credsNow).Code = "Success"
          · exact absurd ((writeCreds_mem_tick st e).2 ⟨hlt, hs⟩) hc
          · rw [tick_of_fail st e hlt hs]
        · rw [tick_of_not_lt st e hlt]
      rcases ih (tick st e).1 with h | ⟨h1, h2⟩
      · left; exact h
      · right
        refine ⟨by simp only [ticks]; rw [h1, hst], ?_⟩
        intro tr htr
        simp only [ticks, List.mem_cons] at htr
        rcases htr with rfl | htr
        · exact hc
        · exact h2 tr htr

/-- From a store whose timestamp `u` is not negative, ticks whose clock never
reads less than some `t` with `600 < t - u` all call the provider as long as
every earlier call failed; the last tick `e2` may have any outcome. -/
theorem all_ticks_call_while_failing (st : imdsState) (t : Int) (es : List TickEnv)
    (e2 : TickEnv) (hu : 0 ≤ st.updatedUnixTime) (ht : 600 < t - st.updatedUnixTime)
    (hclock : clockFrom t (es ++ [e2]))
    (hrange : ∀ e ∈ es ++ [e2], e.now.Unix < 9223372036854775808)
    (hfails : ∀ e ∈ es, e.output = none) :
    ∀ tr ∈ (ticks st (es ++ [e2])).2, Event.AssumeRole ∈ tr := by
  induction es generalizing t with
  | nil =>
    intro tr htr
    have h1 := hclock.1
    have h2 := hrange e2 (by simp)
    have hlt : updatableSeconds < elapsedSeconds st e2.now := by
      unfold elapsedSeconds updatableSeconds
      rw [wrapInt64_of_range] <;> omega
    simp only [List.nil_append, ticks, List.mem_singleton] at htr
    rw [htr]
    exact (assumeRole_mem_tick st e2).2 hlt
  | cons e es ih =>
    intro tr htr
    have h1 := hclock.1
    have h2 := hrange e (by simp)
    have hlt : updatableSeconds < elapsedSeconds st e.now := by
      unfold elapsedSeconds updatableSeconds
      rw [wrapInt64_of_range] <;> omega
    have hnone := hfails e (List.mem_cons_self e es)
    have hf : (getCredentials e.output e.credsNow).Code ≠ "Success" := by
      rw [hnone]
      show ("" : String) ≠ "Success"
      decide
    have hst : tick st e = (st, [Event.readUpdated, Event.AssumeRole]) :=
      tick_of_fail st e hlt hf
    simp only [List.cons_append, ticks, List.mem_cons] at htr
    rcases htr with rfl | htr
    · exact (assumeRole_mem_tick st e).2 hlt
    · rw [hst] at htr
      exact ih e.now.Unix (by omega) hclock.2
        (fun e3 he3 => hrange e3 (List.mem_cons_of_mem e he3))
        (fun e3 he3 => hfails e3 (List.mem_cons_of_mem e he3)) tr htr

/-- Adding the 1200 seconds of `durationSeconds` moves the seconds and leaves
the nanoseconds and the location, for an instant whose seconds are an `int64`
and lie at least 1200 below the largest second `addSec` can hold. -/
theorem Add_duration (t : Time) (hn : t.nsec < 1000000000)
    (hlo : -9223372036854775808 ≤ t.sec)
    (hhi : t.sec + unixToInternal + 1200 ≤ 9223372036854775807) :
    t.Add (durationSeconds * Second) = { t with sec := t.sec + 1200 } := by
  have h1 : Int.tdiv (durationSeconds * Second) 1000000000 = 1200 := by decide
  have h2 : Int.tmod (durationSeconds * Second) 1000000000 = 0 := by decide
  have hU : unixToInternal = 62135596800 := rfl
  have e1 : wrapInt64 (t.sec + unixToInternal) = t.sec + unixToInternal :=
    wrapInt64_of_range _ (by omega) (by omega)
  have e2 : wrapInt64 (t.sec + unixToInternal + 1200) = t.sec + unixToInternal + 1200 :=
    wrapInt64_of_range _ (by omega) (by omega)
  have e3 : wrapInt64 (t.sec + unixToInternal + 1200 - unixToInternal) = t.sec + 1200 := by
    rw [wrapInt64_of_range _ (by omega) (by omega)]
    omega
  have h3 : ¬ (1000000000 : Int) ≤ (t.nsec : Int) := by omega
  have h4 : ¬ (t.nsec : Int) < 0 := by omega
  have h5 : t.sec + unixToInternal + 1200 > t.sec + unixToInternal := by omega
  unfold Time.Add Time.addSec
  simp only [h1, h2, add_zero, e1, e2]
  simp [h3, h4, h5, e3]

/-- At the largest seconds `Add` does not wrap: 100 seconds below the largest
second that package `time` can hold, adding 1200 seconds adds 100. -/
theorem Add_saturates :
    (Time.Add ⟨9223371974719178907, 0, 0⟩ (durationSeconds * Second)).sec
      = 9223371974719178907 + 100 := by
  decide

/-! ## The scheduler: the properties -/

/-- C1: a failed provider response never changes the store.  For every store
and every finite sequence of ticks in which each call of the Identity Provider
that is made fails, the store after the sequence has the same cached
credential set and the same last-update timestamp as before it, and the
credential route answers with the same body; nothing is assumed about the
clock, so this holds however long the outage lasts, past `Expiration` too. -/
theorem failed_calls_leave_store_unchanged (st : imdsState) (es : List TickEnv)
    (h : everyCallFails st es) :
    (ticks st es).1.creds = st.creds ∧
      (ticks st es).1.updatedUnixTime = st.updatedUnixTime ∧
      (credentialHandler (ticks st es).1).1 = (credentialHandler st).1 := by
  rw [ticks_state_of_everyCallFails st es h]
  exact ⟨rfl, rfl, rfl⟩

/-- C1 at a concrete input: a store committed at 1700000000 and three failing
ticks, the last one 9000 seconds later, long after the 1200 seconds of
validity. -/
theorem failed_calls_leave_store_unchanged_witness :
    everyCallFails storeAt [failAt 1700000660, failAt 1700003000, failAt 1700009000] ∧
      ((ticks storeAt [failAt 1700000660, failAt 1700003000, failAt 1700009000]).1.creds
          = storeAt.creds ∧
        (ticks storeAt [failAt 1700000660, failAt 1700003000,
          failAt 1700009000]).1.updatedUnixTime = storeAt.updatedUnixTime ∧
        (credentialHandler (ticks storeAt [failAt 1700000660, failAt 1700003000,
          failAt 1700009000]).1).1 = (credentialHandler storeAt).1) :=
  have h : everyCallFails storeAt [failAt 1700000660, failAt 1700003000, failAt 1700009000] :=
    ⟨fun _ => by decide, fun _ => by decide, fun _ => by decide, trivial⟩
  ⟨h, failed_calls_leave_store_unchanged storeAt _ h⟩

/-- C2, as stated, fails: at a tick exactly 600 seconds after the last update
the elapsed time is 600, which is not below the threshold, and yet the tick
makes no call of the Identity Provider and leaves the store as it was, although
the provider would have succeeded. -/
theorem tick_at_600_makes_no_call :
    elapsedSeconds storeAt (tickAt 1700000600).now = 600 ∧
      (600 : Int) ≤ elapsedSeconds storeAt (tickAt 1700000600).now ∧
      Event.AssumeRole ∉ (tick storeAt (tickAt 1700000600)).2 ∧
      (tick storeAt (tickAt 1700000600)).1 = storeAt := by
  decide

/-- C2, amended: at every tick at which the elapsed time since the store's
last-update timestamp is strictly greater than the threshold of 600 seconds,
`updateTimer` calls the Identity Provider. -/
theorem tick_calls_provider_after_600 (st : imdsState) (e : TickEnv)
    (h : 600 < elapsedSeconds st e.now) : Event.AssumeRole ∈ (tick st e).2 :=
  (assumeRole_mem_tick st e).2 h

/-- C2, amended, at a concrete input: a tick 601 seconds after the last
update. -/
theorem tick_calls_provider_after_600_witness :
    600 < elapsedSeconds storeAt (tickAt 1700000601).now ∧
      Event.AssumeRole ∈ (tick storeAt (tickAt 1700000601)).2 :=
  ⟨by decide, tick_calls_provider_after_600 storeAt (tickAt 1700000601) (by decide)⟩

/-- C3: at every tick at which the elapsed time since the store's last-update
timestamp is less than the threshold of 600 seconds, `updateTimer` makes no
call of the Identity Provider and leaves the store, credential set and
timestamp, unchanged. -/
theorem tick_below_600_is_noop (st : imdsState) (e : TickEnv)
    (h : elapsedSeconds st e.now < 600) :
    Event.AssumeRole ∉ (tick st e).2 ∧ (tick st e).1 = st ∧
      (tick st e).1.creds = st.creds ∧
      (tick st e).1.updatedUnixTime = st.updatedUnixTime := by
  have hlt : ¬ updatableSeconds < elapsedSeconds st e.now := by
    unfold updatableSeconds
    omega
  rw [tick_of_not_lt st e hlt]
  simp

/-- C3 at a concrete input: a tick 599 seconds after the last update, at which
the provider would have succeeded. -/
theorem tick_below_600_is_noop_witness :
    elapsedSeconds storeAt (tickAt 1700000599).now < 600 ∧
      (Event.AssumeRole ∉ (tick storeAt (tickAt 1700000599)).2 ∧
        (tick storeAt (tickAt 1700000599)).1 = storeAt ∧
        (tick storeAt (tickAt 1700000599)).1.creds = storeAt.creds ∧
        (tick storeAt (tickAt 1700000599)).1.updatedUnixTime = storeAt.updatedUnixTime) :=
  ⟨by decide, tick_below_600_is_noop storeAt (tickAt 1700000599) (by decide)⟩

set_option maxRecDepth 100000 in
/-- C4 on the code: the startup refresh assigns `is.creds` and nothing else.
After a startup refresh that succeeds at Unix time 1700000000 the last-update
timestamp is still 0, not the current time; the tick 60 seconds later
therefore calls the provider, and when that call succeeds the store holds the
credential set obtained at that tick, so that a later request no longer gets
the body it got right after startup. -/
theorem startup_leaves_timestamp_zero :
    (startup imdsState.zero (some keysA) ⟨1700000000, 0, 0⟩).1.updatedUnixTime = 0 ∧
      (startup imdsState.zero (some keysA) ⟨1700000000, 0, 0⟩).1.updatedUnixTime
        ≠ (⟨1700000000, 0, 0⟩ : Time).Unix ∧
      Event.AssumeRole ∈
        (tick (startup imdsState.zero (some keysA) ⟨1700000000, 0, 0⟩).1 (tickAt 1700000060)).2 ∧
      (updateTimer (some keysA) ⟨1700000000, 0, 0⟩ [tickAt 1700000060]).1.creds
        = getCredentials (some keysB) ⟨1700000060, 500000000, 0⟩ ∧
      (credentialHandler (updateTimer (some keysA) ⟨1700000000, 0, 0⟩ [tickAt 1700000060]).1).1
        ≠ (credentialHandler (updateTimer (some keysA) ⟨1700000000, 0, 0⟩ []).1).1 := by
  decide

/-- The startup refresh leaves the last-update timestamp as it was, whatever
the provider returned. -/
theorem startup_updatedUnixTime (st : imdsState) (output : Option Credentials) (now : Time) :
    (startup st output now).1.updatedUnixTime = st.updatedUnixTime := rfl

/-- C5, as stated, fails: `LastUpdated` is the clock reading taken inside
`getCredentials`, the store's timestamp a later reading taken at the commit.
When the first falls in second 1700000700 and the second in 1700000701, the
committed `LastUpdated` is not the recorded commit time, and `Expiration` is
not that commit time plus 1200 seconds. -/
theorem lastUpdated_differs_from_store_timestamp :
    Event.writeCreds ∈ (tick storeAt straddle).2 ∧
      (tick storeAt straddle).1.creds.LastUpdated.Time.Unix = 1700000700 ∧
      (tick storeAt straddle).1.updatedUnixTime = 1700000701 ∧
      (tick storeAt straddle).1.creds.LastUpdated.Time.Unix
        ≠ (tick storeAt straddle).1.updatedUnixTime ∧
      (tick storeAt straddle).1.creds.Expiration.Time.Unix
        ≠ (tick storeAt straddle).1.updatedUnixTime + 1200 := by
  decide

/-- C5, amended: on every tick on which the provider is called and succeeds,
the credential set committed to the store has `Code` `"Success"`, its
`LastUpdated` is the clock reading taken inside `getCredentials`, and its
`Expiration` is `LastUpdated` plus exactly 1200 seconds (same nanoseconds,
same location), for every clock reading whose seconds are an `int64` and lie
at least 1200 below the largest second `time.Time` can hold, so that `Add`
does not saturate.  The store's last-update timestamp is the Unix second of
the separate clock reading taken at the commit; when both readings fall in the
same second, `LastUpdated` is that second and `Expiration` is it plus 1200. -/
theorem committed_creds_on_success (st : imdsState) (e : TickEnv)
    (hcall : Event.AssumeRole ∈ (tick st e).2)
    (hok : (getCredentials e.output e.credsNow).Code = "Success")
    (hn : e.credsNow.nsec < 1000000000)
    (hlo : -9223372036854775808 ≤ e.credsNow.sec)
    (hhi : e.credsNow.sec + unixToInternal + 1200 ≤ 9223372036854775807) :
    (tick st e).1.creds.Code = "Success" ∧
      (tick st e).1.creds.LastUpdated = ⟨e.credsNow⟩ ∧
      (tick st e).1.creds.Expiration.Time
        = { (tick st e).1.creds.LastUpdated.Time with
            sec := (tick st e).1.creds.LastUpdated.Time.sec + 1200 } ∧
      (tick st e).1.creds.Expiration.Time.Unix
        = (tick st e).1.creds.LastUpdated.Time.Unix + 1200 ∧
      (tick st e).1.updatedUnixTime = e.commitNow.Unix ∧
      (e.credsNow.Unix = e.commitNow.Unix →
        (tick st e).1.creds.LastUpdated.Time.Unix = (tick st e).1.updatedUnixTime ∧
        (tick st e).1.creds.Expiration.Time.Unix = (tick st e).1.updatedUnixTime + 1200) := by
  have hlt := (assumeRole_mem_tick st e).1 hcall
  rw [tick_of_success st e hlt hok]
  cases hout : e.output with
  | none =>
    rw [hout] at hok
    exact absurd rfl ((getCredentials_Code_iff none e.credsNow).1 hok)
  | some out =>
    simp only [getCredentials, Add_duration e.credsNow hn hlo hhi, Time.Unix]
    refine ⟨trivial, trivial, trivial, trivial, trivial, ?_⟩
    intro h
    omega

/-- C5, amended, at a concrete input: a successful tick 700 seconds after the
last update. -/
theorem committed_creds_on_success_witness :
    Event.AssumeRole ∈ (tick storeAt (tickAt 1700000700)).2 ∧
      (tick storeAt (tickAt 1700000700)).1.creds.Expiration.Time.Unix
        = (tick storeAt (tickAt 1700000700)).1.creds.LastUpdated.Time.Unix + 1200 :=
  ⟨by decide,
    (committed_creds_on_success storeAt (tickAt 1700000700) (by decide) (by decide)
      (by decide) (by decide) (by decide)).2.2.2.1⟩

/-- C6: in every store state reached by `updateTimer` after the startup
refresh and any number of ticks, the cached credential set has `Code`
`"Success"`, unless the startup refresh failed and no tick has committed since
(the cache is then the zero credential set); and once the store holds a
`Success` credential set, every later tick, and every sequence of ticks,
whatever the provider returns, leaves it holding one. -/
theorem store_holds_success_after_startup (output : Option Credentials) (now : Time)
    (es : List TickEnv) :
    ((updateTimer output now es).1.creds.Code = "Success" ∨
        (output = none ∧
          (∀ tr ∈ (updateTimer output now es).2.tail, Event.writeCreds ∉ tr) ∧
          (updateTimer output now es).1.creds = creds.zero)) ∧
      (∀ (st : imdsState) (e : TickEnv),
        st.creds.Code = "Success" → (tick st e).1.creds.Code = "Success") ∧
      (∀ (st : imdsState) (es2 : List TickEnv),
        st.creds.Code = "Success" → (ticks st es2).1.creds.Code = "Success") := by
  refine ⟨?_, tick_keeps_success, ticks_keep_success⟩
  cases output with
  | some out =>
    left
    exact ticks_keep_success _ es rfl
  | none =>
    rcases ticks_success_or_unchanged (startup imdsState.zero none now).1 es with h | ⟨h1, h2⟩
    · left; exact h
    · right
      refine ⟨rfl, h2, ?_⟩
      show (ticks (startup imdsState.zero none now).1 es).1.creds = creds.zero
      rw [h1]
      rfl

/-- C7: a failed provider call is retried on the next tick and on every tick
after it until a call succeeds.  The clock readings are Unix times that fit an
`int64`, are not negative and do not decrease.  Let the ticks `es` all fail
and let `e2` be the tick after them, with any outcome.  (1) After a tick `e`
that called the provider and failed, the store is unchanged, every tick of
`es` and the tick `e2` call the provider, and the loop has run all of them.
(2) After a failed startup refresh from the initial state, at a clock reading
more than 600 seconds past the epoch, the same holds. -/
theorem failed_call_is_retried_on_every_tick (es : List TickEnv) (e2 : TickEnv)
    (hfails : ∀ e ∈ es, e.output = none)
    (hrange : ∀ e ∈ es ++ [e2], e.now.Unix < 9223372036854775808) :
    (∀ (st : imdsState) (e : TickEnv),
        0 ≤ st.updatedUnixTime → st.updatedUnixTime < 9223372036854775808 →
        0 ≤ e.now.Unix → e.now.Unix < 9223372036854775808 →
        Event.AssumeRole ∈ (tick st e).2 →
        (getCredentials e.output e.credsNow).Code ≠ "Success" →
        clockFrom e.now.Unix (es ++ [e2]) →
        (tick st e).1 = st ∧
        (∀ tr ∈ (ticks (tick st e).1 (es ++ [e2])).2, Event.AssumeRole ∈ tr) ∧
        (ticks (tick st e).1 (es ++ [e2])).2.length = es.length + 1) ∧
      (∀ now : Time, 600 < now.Unix → clockFrom now.Unix (es ++ [e2]) →
        (startup imdsState.zero none now).1.creds.Code ≠ "Success" ∧
        (∀ tr ∈ (ticks (startup imdsState.zero none now).1 (es ++ [e2])).2,
          Event.AssumeRole ∈ tr) ∧
        (ticks (startup imdsState.zero none now).1 (es ++ [e2])).2.length = es.length + 1) := by
  constructor
  · intro st e hu hu2 hr0 hr hcall hfail hclock
    have hlt := (assumeRole_mem_tick st e).1 hcall
    have hst : (tick st e).1 = st := by rw [tick_of_fail st e hlt hfail]
    refine ⟨hst, ?_, by simp [ticks_length]⟩
    rw [hst]
    have hel : 600 < e.now.Unix - st.updatedUnixTime := by
      unfold elapsedSeconds updatableSeconds wrapInt64 at hlt
      omega
    exact all_ticks_call_while_failing st e.now.Unix es e2 hu hel hclock hrange hfails
  · intro now hnow hclock
    refine ⟨by show ("" : String) ≠ "Success"; decide, ?_, by simp [ticks_length]⟩
    exact all_ticks_call_while_failing _ now.Unix es e2 (le_refl 0)
      (by show 600 < now.Unix - 0; omega) hclock hrange hfails

/-- C7 at a concrete input: after a failed tick at 1700000660, and after a
failed startup at 1700000000, two more failing ticks and a succeeding one, 60
seconds apart, all call the provider. -/
theorem failed_call_is_retried_on_every_tick_witness :
    (∀ tr ∈ (ticks (tick storeAt (failAt 1700000660)).1
        ([failAt 1700000720, failAt 1700000780] ++ [tickAt 1700000840])).2,
          Event.AssumeRole ∈ tr) ∧
      (∀ tr ∈ (ticks (startup imdsState.zero none ⟨1700000000, 0, 0⟩).1
        ([failAt 1700000720, failAt 1700000780] ++ [tickAt 1700000840])).2,
          Event.AssumeRole ∈ tr) :=
  ⟨((failed_call_is_retried_on_every_tick [failAt 1700000720, failAt 1700000780]
      (tickAt 1700000840) (by decide) (by decide)).1 storeAt (failAt 1700000660)
      (by decide) (by decide) (by decide) (by decide) (by decide) (by decide)
      ⟨by decide, by decide, by decide, trivial⟩).2.1,
   ((failed_call_is_retried_on_every_tick [failAt 1700000720, failAt 1700000780]
      (tickAt 1700000840) (by decide) (by decide)).2 ⟨1700000000, 0, 0⟩
      (by decide) ⟨by decide, by decide, by decide, trivial⟩).2.1⟩

/-! ## `Fprintf`: the fuel is enough

Each stage of a verb leaves a format that is no longer than the one it was
given, so a pass of the loop consumes at least the `%` or one character of
text, and the loop is the same for every fuel from the length of the format
on. -/

theorem parsenumLoop_length (seg : List Char) (num : Nat) (isnum : Bool) :
    (parsenumLoop seg num isnum).2.2.length ≤ seg.length := by
  induction seg generalizing num isnum with
  | nil => simp [parsenumLoop]
  | cons c rest ih =>
    simp only [parsenumLoop]
    split
    · split
      · simp
      · exact le_trans (ih _ _) (by simp)
    · simp

theorem splitBracket_length (f seg after : List Char) (h : splitBracket f = some (seg, after)) :
    after.length < f.length := by
  induction f generalizing seg with
  | nil => simp [splitBracket] at h
  | cons c rest ih =>
    simp only [splitBracket] at h
    split at h
    · simp only [Option.some.injEq, Prod.mk.injEq] at h
      rw [← h.2]; simp
    · split at h
      · simp at h
      · rename_i seg2 after2 heq
        simp only [Option.some.injEq, Prod.mk.injEq] at h
        obtain ⟨_, rfl⟩ := h
        exact lt_trans (ih seg2 heq) (by simp)

theorem parseArgNumber_length (tl : List Char) : (parseArgNumber tl).1.length ≤ tl.length := by
  unfold parseArgNumber
  split
  · simp
  · split
    · simp
    · rename_i seg after heq
      have := splitBracket_length tl seg after heq
      simp only []
      split <;> simp <;> omega

theorem argNumber_length (f : List Char) : (argNumber f).1.length ≤ f.length := by
  unfold argNumber
  split
  · rename_i tl
    exact le_trans (parseArgNumber_length tl) (by simp)
  · simp

theorem verbIndex_length (f : List Char) : (verbIndex f).format.length ≤ f.length := by
  unfold verbIndex
  exact le_trans (argNumber_length _) (List.dropWhile_sublist isFlag).length_le

theorem verbWidth_length (s : VerbState) : (verbWidth s).format.length ≤ s.format.length := by
  unfold verbWidth
  split
  · rename_i rest heq
    rw [heq]; simp
  · exact parsenumLoop_length _ _ _

theorem verbPrecision_length (s : VerbState) :
    (verbPrecision s).format.length ≤ s.format.length := by
  unfold verbPrecision
  split
  · rename_i rest heq
    rw [heq]
    have h := argNumber_length rest
    simp only []
    split
    · rename_i rest2 heq2
      rw [heq2] at h
      simp only [List.length_cons] at h ⊢
      omega
    · have h2 := parsenumLoop_length (argNumber rest).1 0 false
      simp only [List.length_cons, parsenum]
      omega
  · exact le_refl _

theorem verbLastIndex_length (s : VerbState) :
    (verbLastIndex s).format.length ≤ s.format.length := by
  unfold verbLastIndex
  split
  · exact le_refl _
  · exact argNumber_length _

theorem verbFinish_length (s : VerbState) : (verbFinish s).2.length ≤ s.format.length := by
  unfold verbFinish
  split
  · simp
  · rename_i verb rest heq
    rw [heq]
    split
    · simp
    · split <;> simp

theorem doVerb_length (f : List Char) : (doVerb f).2.length ≤ f.length := by
  unfold doVerb
  exact le_trans (verbFinish_length _) (le_trans (verbLastIndex_length _)
    (le_trans (verbPrecision_length _) (le_trans (verbWidth_length _) (verbIndex_length f))))

theorem doPrintfLoop_fuel (fuel1 : Nat) (f : List Char) (fuel2 : Nat)
    (h1 : f.length ≤ fuel1) (h2 : f.length ≤ fuel2) :
    doPrintfLoop fuel1 f = doPrintfLoop fuel2 f := by
  induction fuel1 generalizing f fuel2 with
  | zero =>
    have hf : f = [] := List.length_eq_zero.mp (by omega)
    subst hf
    cases fuel2 <;> rfl
  | succ k ih =>
    cases f with
    | nil => cases fuel2 <;> rfl
    | cons c rest =>
      cases fuel2 with
      | zero => simp at h2
      | succ j =>
        simp only [List.length_cons, Nat.add_le_add_iff_right] at h1 h2
        simp only [doPrintfLoop]
        split
        · have hl := doVerb_length rest
          rw [ih (doVerb rest).2 j (by omega) (by omega)]
        · rw [ih rest j h1 h2]

theorem doPrintfLoop_of_no_percent (fuel : Nat) (f : List Char) (hf : f.length ≤ fuel)
    (h : '%' ∉ f) : doPrintfLoop fuel f = f := by
  induction f generalizing fuel with
  | nil => cases fuel <;> rfl
  | cons c rest ih =>
    cases fuel with
    | zero => simp at hf
    | succ k =>
      have hc : c ≠ '%' := fun hc => h (by simp [hc])
      have hr : '%' ∉ rest := fun hr => h (List.mem_cons_of_mem c hr)
      simp only [doPrintfLoop, hc, if_false]
      rw [ih k (by simpa using hf) hr]

/-- When the JSON text holds no percent sign, the body is the JSON text. -/
theorem credentialHandler_of_no_percent (st : imdsState)
    (h : '%' ∉ (Marshal st.creds).data) : (credentialHandler st).1 = Marshal st.creds := by
  show String.mk (doPrintfLoop (Marshal st.creds).data.length (Marshal st.creds).data)
    = Marshal st.creds
  rw [doPrintfLoop_of_no_percent _ _ (le_refl _) h]

/-! ## The credential route -/

set_option maxRecDepth 1000000 in
/-- C8 on the code: `credentialHandler` passes the JSON text to `fmt.Fprintf`
as the format.  For a cached credential set whose `Token` is `tok%dend` the
JSON serialization holds `"Token":"tok%dend"`, while the body written holds
`"Token":"tok%!d(MISSING)end"`: the body is not the JSON serialization of the
snapshot. -/
theorem credentialHandler_percent_garbles_body :
    Marshal storePercent.creds =
        "\x7b\"Code\":\"Success\",\"LastUpdated\":\"2020-07-05T09:09:43Z\",\"Type\":\"AWS-HMAC\",\"AccessKeyId\":\"ASIAEXAMPLE\",\"SecretAccessKey\":\"secret\",\"Token\":\"tok%dend\",\"Expiration\":\"2020-07-05T09:29:43Z\"\x7d" ∧
      (credentialHandler storePercent).1 =
        "\x7b\"Code\":\"Success\",\"LastUpdated\":\"2020-07-05T09:09:43Z\",\"Type\":\"AWS-HMAC\",\"AccessKeyId\":\"ASIAEXAMPLE\",\"SecretAccessKey\":\"secret\",\"Token\":\"tok%!d(MISSING)end\",\"Expiration\":\"2020-07-05T09:29:43Z\"\x7d" ∧
      (credentialHandler storePercent).1 ≠ Marshal storePercent.creds := by
  decide

/-- C10 on the code: the credential route reads `is.creds` between
`mu.Lock()` and `mu.Unlock()`, and every tick that writes it does so between
`mu.Lock()` and `mu.Unlock()`; the startup refresh writes `is.creds` and never
takes the lock. -/
theorem startup_writes_creds_without_lock :
    (∀ st : imdsState, credsGuarded false (credentialHandler st).2 = true) ∧
      (∀ (st : imdsState) (e : TickEnv), credsGuarded false (tick st e).2 = true) ∧
      (∀ (st : imdsState) (output : Option Credentials) (now : Time),
        Event.writeCreds ∈ (startup st output now).2 ∧
        Event.Lock ∉ (startup st output now).2 ∧
        credsGuarded false (startup st output now).2 = false) := by
  refine ⟨fun _ => rfl, ?_, fun _ _ _ => ⟨by simp [startup], by simp [startup], rfl⟩⟩
  intro st e
  by_cases hlt : updatableSeconds < elapsedSeconds st e.now
  · by_cases hs : (getCredentials e.output e.credsNow).Code = "Success"
    · rw [tick_of_success st e hlt hs]; rfl
    · rw [tick_of_fail st e hlt hs]; rfl
  · rw [tick_of_not_lt st e hlt]; rfl

/-! ## `format`: the calendar conversion -/

theorem daysBeforeYear_closed (y : Nat) :
    daysBeforeYear y = 365 * y + (y + 3) / 4 - (y + 99) / 100 + (y + 399) / 400 := by
  induction y with
  | zero => rfl
  | succ y ih =>
    simp only [daysBeforeYear, daysInYear, gregorianLeap, ih]
    split <;> rename_i h <;> simp only [decide_eq_true_eq] at h <;> omega

theorem absYear_arith (d0 q c e f : Int)
    (hq : 146097 * q ≤ d0 ∧ d0 < 146097 * q + 146097)
    (hc : 36524 * c ≤ d0 - 146097 * q ∧ d0 - 146097 * q < 36524 * c + 36524)
    (he : 1461 * e ≤ d0 - 146097 * q - 36524 * (c - c / 4) ∧
      d0 - 146097 * q - 36524 * (c - c / 4) < 1461 * e + 1461)
    (hf : 365 * f ≤ d0 - 146097 * q - 36524 * (c - c / 4) - 1461 * e ∧
      d0 - 146097 * q - 36524 * (c - c / 4) - 1461 * e < 365 * f + 365) :
    0 ≤ d0 - 146097 * q - 36524 * (c - c / 4) - 1461 * e - 365 * (f - f / 4) ∧
      d0 - 146097 * q - 36524 * (c - c / 4) - 1461 * e - 365 * (f - f / 4) <
        365 + (if isLeap (400 * q + 100 * (c - c / 4) + 4 * e + (f - f / 4) + 1) then 1 else 0) ∧
      365 * ((400 * q + 100 * (c - c / 4) + 4 * e + (f - f / 4) + 1) - 1)
        + ((400 * q + 100 * (c - c / 4) + 4 * e + (f - f / 4) + 1) - 1) / 4
        - ((400 * q + 100 * (c - c / 4) + 4 * e + (f - f / 4) + 1) - 1) / 100
        + ((400 * q + 100 * (c - c / 4) + 4 * e + (f - f / 4) + 1) - 1) / 400
        + (d0 - 146097 * q - 36524 * (c - c / 4) - 1461 * e - 365 * (f - f / 4)) = d0 := by
  have hc5 : c = 0 ∨ c = 1 ∨ c = 2 ∨ c = 3 ∨ c = 4 := by omega
  have hf5 : f = 0 ∨ f = 1 ∨ f = 2 ∨ f = 3 ∨ f = 4 := by omega
  simp only [isLeap]
  rcases hc5 with rfl | rfl | rfl | rfl | rfl <;>
    rcases hf5 with rfl | rfl | rfl | rfl | rfl <;>
    norm_num at he hf ⊢ <;>
    (refine ⟨by omega, ?_, by omega⟩
     split <;> rename_i h
     · omega
     · simp at h
       omega)

theorem absYear_spec (d0 : Int) :
    0 ≤ (absYear d0).2 ∧
      (absYear d0).2 < 365 + (if isLeap (absYear d0).1 then 1 else 0) ∧
      365 * ((absYear d0).1 - 1) + ((absYear d0).1 - 1) / 4 - ((absYear d0).1 - 1) / 100
        + ((absYear d0).1 - 1) / 400 + (absYear d0).2 = d0 := by
  simp only [absYear, daysPer400Years, daysPer100Years, daysPer4Years]
  exact absYear_arith d0 _ _ _ _ (by omega) (by omega) (by omega) (by omega)

set_option maxRecDepth 1000000 in
theorem absMonthDay_table_leap : ∀ n < 366, monthDayOk true n = true := by
  decide

set_option maxRecDepth 1000000 in
theorem absMonthDay_table_common : ∀ n < 365, monthDayOk false n = true := by
  decide

theorem decimal_small (fuel u : Nat) (acc : List Char) (hf : 0 < fuel) (h : u < 10) :
    decimal fuel u acc = digit u :: acc := by
  cases fuel with
  | zero => omega
  | succ k =>
    have h0 : u / 10 = 0 := by omega
    simp [decimal, h0]

theorem decimal_big (fuel u : Nat) (acc : List Char) (hf : 0 < fuel) (h : 10 ≤ u) :
    decimal fuel u acc = decimal (fuel - 1) (u / 10) (digit u :: acc) := by
  cases fuel with
  | zero => omega
  | succ k =>
    have h0 : ¬ u / 10 = 0 := by omega
    simp [decimal, h0]

/-- The fuel `u + 1` that `appendInt` gives is enough: from any fuel above `u`
on, `decimal` returns the same digits. -/
theorem decimal_fuel (fuel1 : Nat) (u : Nat) (acc : List Char) (fuel2 : Nat)
    (h1 : u < fuel1) (h2 : u < fuel2) : decimal fuel1 u acc = decimal fuel2 u acc := by
  induction fuel1 generalizing u acc fuel2 with
  | zero => omega
  | succ k ih =>
    cases fuel2 with
    | zero => omega
    | succ j =>
      simp only [decimal]
      split
      · rfl
      · exact ih (u / 10) _ j (by omega) (by omega)

theorem digit_eq (u : Nat) : digit u = decimalDigit (u % 10) := rfl

theorem appendInt_two (n : Nat) (h : n < 100) : appendInt (n : Int) 2 = twoDigits n := by
  have hneg : ¬ (n : Int) < 0 := by omega
  simp only [appendInt, Int.natAbs_ofNat, hneg, if_false, List.nil_append, twoDigits]
  by_cases h1 : n < 10
  · rw [decimal_small _ _ _ (by omega) h1]
    have h2 : n / 10 = 0 := by omega
    have h3 : n % 10 = n := by omega
    simp [digit_eq, h2, h3, decimalDigit]
  · rw [decimal_big _ _ _ (by omega) (by omega), decimal_small _ _ _ (by omega) (by omega)]
    have h2 : n / 10 % 10 = n / 10 := by omega
    simp [digit_eq, h2]

theorem appendInt_four (n : Nat) (h : n < 10000) : appendInt (n : Int) 4 = fourDigits n := by
  have hneg : ¬ (n : Int) < 0 := by omega
  simp only [appendInt, Int.natAbs_ofNat, hneg, if_false, List.nil_append, fourDigits]
  by_cases h1 : n < 10
  · rw [decimal_small _ _ _ (by omega) h1]
    have h2 : n / 1000 = 0 := by omega
    have h3 : n / 100 = 0 := by omega
    have h4 : n / 10 = 0 := by omega
    simp [digit_eq, h2, h3, h4, decimalDigit, List.replicate]
  · by_cases h5 : n < 100
    · rw [decimal_big _ _ _ (by omega) (by omega), decimal_small _ _ _ (by omega) (by omega)]
      have h2 : n / 1000 = 0 := by omega
      have h3 : n / 100 = 0 := by omega
      simp [digit_eq, h2, h3, decimalDigit, List.replicate]
    · by_cases h6 : n < 1000
      · rw [decimal_big _ _ _ (by omega) (by omega), decimal_big _ _ _ (by omega) (by omega),
          decimal_small _ _ _ (by omega) (by omega)]
        have h2 : n / 1000 = 0 := by omega
        have h3 : n / 10 / 10 = n / 100 := by omega
        simp [digit_eq, h2, h3, decimalDigit, List.replicate]
      · rw [decimal_big _ _ _ (by omega) (by omega), decimal_big _ _ _ (by omega) (by omega),
          decimal_big _ _ _ (by omega) (by omega), decimal_small _ _ _ (by omega) (by omega)]
        have h2 : n / 100 / 10 % 10 = n / 1000 := by omega
        have h3 : n / 10 / 10 = n / 100 := by omega
        simp [digit_eq, h2, h3]

theorem isLeap_eq (y : Nat) : isLeap (y : Int) = gregorianLeap y := by
  simp only [isLeap, gregorianLeap]
  rw [Bool.eq_iff_iff]
  simp
  omega

theorem chunks_layout :
    chunks "2006-01-02T15:04:05Z".data =
      [Chunk.std Std.stdLongYear, Chunk.lit '-', Chunk.std Std.stdZeroMonth, Chunk.lit '-',
        Chunk.std Std.stdZeroDay, Chunk.lit 'T', Chunk.std Std.stdHour, Chunk.lit ':',
        Chunk.std Std.stdZeroMinute, Chunk.lit ':', Chunk.std Std.stdZeroSecond,
        Chunk.lit 'Z'] := by
  decide

theorem format_eq (u : utcTime) :
    u.format = String.mk
      (appendInt (absDate (u.Time.UTC.abs / secondsPerDay)).1 4 ++ ['-']
        ++ appendInt (absDate (u.Time.UTC.abs / secondsPerDay)).2.1 2 ++ ['-']
        ++ appendInt (absDate (u.Time.UTC.abs / secondsPerDay)).2.2 2 ++ ['T']
        ++ appendInt (absClock u.Time.UTC.abs).1 2 ++ [':']
        ++ appendInt (absClock u.Time.UTC.abs).2.1 2 ++ [':']
        ++ appendInt (absClock u.Time.UTC.abs).2.2 2 ++ ['Z']) := by
  unfold utcTime.format Time.Format
  rw [chunks_layout]
  simp only [List.flatMap_cons, List.flatMap_nil,
    appendChunk, List.append_assoc, List.append_nil, List.singleton_append, List.cons_append,
    List.nil_append]

theorem daysBeforeYear_int (y : Nat) :
    (daysBeforeYear y : Int) =
      365 * ((y : Int) - 1) + ((y : Int) - 1) / 4 - ((y : Int) - 1) / 100
        + ((y : Int) - 1) / 400 + 366 := by
  have h := daysBeforeYear_closed y
  have h4 : (((y + 3) / 4 : Nat) : Int) = ((y : Int) - 1) / 4 + 1 := by omega
  have h100 : (((y + 99) / 100 : Nat) : Int) = ((y : Int) - 1) / 100 + 1 := by omega
  have h400 : (((y + 399) / 400 : Nat) : Int) = ((y : Int) - 1) / 400 + 1 := by omega
  have hle : (y + 99) / 100 ≤ 365 * y + (y + 3) / 4 := by omega
  omega

theorem daysFromCivil_epoch : daysFromCivil 1970 1 1 = 719528 := by
  simp [daysFromCivil, daysBeforeYear_closed, daysBeforeMonth, monthStart]

theorem unixFromCivil_first : unixFromCivil 0 1 1 0 0 0 = -62167219200 := by
  rw [unixFromCivil, daysFromCivil_epoch]
  simp [daysFromCivil, daysBeforeYear, daysBeforeMonth, monthStart]

theorem unixFromCivil_last : unixFromCivil 9999 12 31 23 59 59 = 253402300799 := by
  rw [unixFromCivil, daysFromCivil_epoch]
  have h : gregorianLeap 9999 = false := by decide
  simp [daysFromCivil, daysBeforeYear_closed, daysBeforeMonth, monthStart, monthLength, h]

theorem monthDay_spec (y n : Nat) (hn : n < 365 + (if gregorianLeap y then 1 else 0)) :
    ∃ m d : Nat, absMonthDay (gregorianLeap y) (n : Int) = ((m : Int), (d : Int)) ∧
      1 ≤ m ∧ m ≤ 12 ∧ 1 ≤ d ∧ d ≤ daysInMonth y m ∧ daysBeforeMonth y m + (d - 1) = n := by
  have hok : monthDayOk (gregorianLeap y) n = true := by
    cases hl : gregorianLeap y with
    | true => rw [hl] at hn; exact absMonthDay_table_leap n (by simpa using hn)
    | false => rw [hl] at hn; exact absMonthDay_table_common n (by simpa using hn)
  simp only [monthDayOk, Bool.and_eq_true, decide_eq_true_eq] at hok
  obtain ⟨⟨⟨⟨h1, h2⟩, h3⟩, h4⟩, h5⟩ := hok
  refine ⟨(absMonthDay (gregorianLeap y) (n : Int)).1.toNat,
    (absMonthDay (gregorianLeap y) (n : Int)).2.toNat, ?_, ?_, ?_, ?_, ?_, ?_⟩
  · rw [Int.toNat_of_nonneg (by omega), Int.toNat_of_nonneg (by omega)]
  · omega
  · omega
  · omega
  · unfold daysInMonth; omega
  · unfold daysBeforeMonth; omega

theorem absClock_spec (a : Int) :
    ∃ h mi s : Nat, absClock a = ((h : Int), (mi : Int), (s : Int)) ∧
      h < 24 ∧ mi < 60 ∧ s < 60 ∧
      3600 * (h : Int) + 60 * (mi : Int) + (s : Int) = a % 86400 := by
  refine ⟨(absClock a).1.toNat, (absClock a).2.1.toNat, (absClock a).2.2.toNat, ?_⟩
  simp only [absClock, secondsPerDay]
  have h1 : 0 ≤ a % 86400 / 3600 := by omega
  have h2 : 0 ≤ (a % 86400 - a % 86400 / 3600 * 3600) / 60 := by omega
  have h3 : 0 ≤ a % 86400 - a % 86400 / 3600 * 3600
      - (a % 86400 - a % 86400 / 3600 * 3600) / 60 * 60 := by omega
  rw [Int.toNat_of_nonneg h1, Int.toNat_of_nonneg h2, Int.toNat_of_nonneg h3]
  refine ⟨rfl, ?_, ?_, ?_, ?_⟩ <;> omega

/-- C9: for every instant whose UTC year has four digits (from
0000-01-01T00:00:00Z to 9999-12-31T23:59:59Z), whatever the location in which
the value is held and whatever its nanoseconds, `utcTime.format` returns the
20 characters `YYYY-MM-DDTHH:MM:SSZ` of a valid Gregorian date and time of day
whose Unix time is the instant's whole seconds: the UTC date and time
truncated to seconds, a literal `Z`, no fraction and no offset.
`MarshalJSON` returns that text between double quotes. -/
theorem format_renders_utc_instant (t : Time)
    (hlo : unixFromCivil 0 1 1 0 0 0 ≤ t.sec)
    (hhi : t.sec ≤ unixFromCivil 9999 12 31 23 59 59) :
    ∃ y m d h mi s : Nat,
      y ≤ 9999 ∧ 1 ≤ m ∧ m ≤ 12 ∧ 1 ≤ d ∧ d ≤ daysInMonth y m ∧
      h < 24 ∧ mi < 60 ∧ s < 60 ∧
      unixFromCivil y m d h mi s = t.sec ∧
      (utcTime.mk t).format = isoUTC y m d h mi s ∧
      (utcTime.mk t).format.length = 20 ∧
      (utcTime.mk t).MarshalJSON = "\"" ++ isoUTC y m d h mi s ++ "\"" := by
  rw [unixFromCivil_first] at hlo
  rw [unixFromCivil_last] at hhi
  have habs : (utcTime.mk t).Time.UTC.abs = t.sec + 62135596800 := by
    simp [Time.UTC, Time.abs, unixToInternal]
  obtain ⟨hyd0, hyd1, hyeq⟩ := absYear_spec ((t.sec + 62135596800) / 86400)
  have hY0 : 0 ≤ (absYear ((t.sec + 62135596800) / 86400)).1 := by
    by_cases hl : isLeap (absYear ((t.sec + 62135596800) / 86400)).1 = true
    · simp [isLeap] at hl
      omega
    · rw [if_neg hl] at hyd1
      by_contra hneg
      have h4 : ((absYear ((t.sec + 62135596800) / 86400)).1 - 1) / 4 ≤ -1 := by omega
      have h400 : ((absYear ((t.sec + 62135596800) / 86400)).1 - 1) / 400 ≤ -1 := by omega
      omega
  have hY1 : (absYear ((t.sec + 62135596800) / 86400)).1 ≤ 9999 := by omega
  obtain ⟨y, hy⟩ : ∃ y : Nat, (absYear ((t.sec + 62135596800) / 86400)).1 = (y : Int) :=
    ⟨_, (Int.toNat_of_nonneg hY0).symm⟩
  obtain ⟨n, hn⟩ : ∃ n : Nat, (absYear ((t.sec + 62135596800) / 86400)).2 = (n : Int) :=
    ⟨_, (Int.toNat_of_nonneg hyd0).symm⟩
  rw [hy, hn] at hyd1 hyeq
  rw [isLeap_eq] at hyd1
  have hn' : n < 365 + (if gregorianLeap y then 1 else 0) := by
    split at hyd1 <;> rename_i hl <;> simp only [hl, if_true, if_false] <;> omega
  obtain ⟨m, d, hmd, hm1, hm2, hd1, hd2, hsum⟩ := monthDay_spec y n hn'
  obtain ⟨h, mi, s, hclock, hh, hmi, hs, hsec⟩ := absClock_spec (t.sec + 62135596800)
  have hdate : absDate ((t.sec + 62135596800) / 86400) = ((y : Int), (m : Int), (d : Int)) := by
    simp only [absDate, hy, hn, isLeap_eq, hmd]
  have hfmt : (utcTime.mk t).format = isoUTC y m d h mi s := by
    rw [format_eq, habs]
    simp only [secondsPerDay, hdate, hclock]
    rw [appendInt_four y (by omega), appendInt_two m (by omega), appendInt_two d (by
      have : daysInMonth y m ≤ 31 := by unfold daysInMonth monthLength; split <;> split <;> omega
      omega), appendInt_two h (by omega), appendInt_two mi (by omega),
      appendInt_two s (by omega)]
    rfl
  refine ⟨y, m, d, h, mi, s, by omega, hm1, hm2, hd1, hd2, hh, hmi, hs, ?_, hfmt, ?_, ?_⟩
  · rw [unixFromCivil, daysFromCivil_epoch]
    simp only [daysFromCivil]
    have hclosed := daysBeforeYear_int y
    push_cast
    omega
  · rw [hfmt]
    simp [isoUTC, fourDigits, twoDigits, String.length]
  · unfold utcTime.MarshalJSON
    rw [hfmt]

/-- C9 at a concrete input: 2020-07-05T09:09:43.000000005Z held nine hours
east of UTC. -/
theorem format_renders_utc_instant_witness :
    (utcTime.mk sampleTime).format = "2020-07-05T09:09:43Z" ∧
      ∃ y m d h mi s : Nat,
        y ≤ 9999 ∧ 1 ≤ m ∧ m ≤ 12 ∧ 1 ≤ d ∧ d ≤ daysInMonth y m ∧
        h < 24 ∧ mi < 60 ∧ s < 60 ∧
        unixFromCivil y m d h mi s = sampleTime.sec ∧
        (utcTime.mk sampleTime).format = isoUTC y m d h mi s ∧
        (utcTime.mk sampleTime).format.length = 20 ∧
        (utcTime.mk sampleTime).MarshalJSON = "\"" ++ isoUTC y m d h mi s ++ "\"" :=
  ⟨by decide,
    format_renders_utc_instant sampleTime
      (by rw [unixFromCivil_first]; decide) (by rw [unixFromCivil_last]; decide)⟩

end ImdsLocal
